import Mathlib

/-!
Verification of the audio-to-guitar-tab pipeline (src/main.py) against its
natural-language specification.  The Python source is shallowly embedded:
pure functions become Lean functions on List / Nat / Int / Rat / Real,
Python exceptions become Option, numpy real arithmetic becomes Real.
-/

open Real

/-! ## Constant tables from the source -/

/-- Chromatic pitch-class names, from pitch_to_note and note_to_midi in src/main.py. -/
def noteNames : List String :=
  ["C", "C#", "D", "D#", "E", "F"] ++ ["F#", "G", "G#", "A", "A#", "B"]

/-- Guitar string identifiers low to high, from midi_to_guitar_tab. -/
def guitarStrings : List String := ["E", "A", "D", "G", "B", "e"]

/-- Open-string MIDI numbers low to high, from midi_to_guitar_tab. -/
def openStrings : List Int := [40, 45, 50, 55, 59, 64]

/-- Display order of the tab dictionary keys, from generate_guitar_tabs. -/
def tabOrder : List String := ["e", "B", "G", "D", "A", "E"]

/-! ## TabMapper: midi_to_guitar_tab -/

/-- One iteration of the fret-search loop in midi_to_guitar_tab: the
accumulator is the (best_string, best_fret) pair, p is an (index, open_midi)
pair from enumerate(open_strings). -/
def tabStep (m : Int) (b : Nat × Int) (p : Nat × Int) : Nat × Int :=
  if p.2 ≤ m then
    (if m - p.2 ≤ 20 ∧ m - p.2 < b.2 then (p.1, m - p.2) else b)
  else b

/-- The full fret-search loop of midi_to_guitar_tab, starting from
best_string = 0, best_fret = 100. -/
def tabFold (m : Int) : Nat × Int :=
  (openStrings.enum).foldl (tabStep m) (0, 100)

/-- midi_to_guitar_tab from src/main.py: lowest playable fret over the six
strings, returning the dash pair when no string qualifies. -/
def midi_to_guitar_tab (m : Int) : String × String :=
  if (tabFold m).2 = 100 then ("-", "-")
  else (guitarStrings.getD (tabFold m).1 "-", toString (tabFold m).2)

/-- A string index i qualifies for MIDI note m when its open pitch is at
most m and the needed fret is at most 20 (the search condition of
midi_to_guitar_tab). -/
def qualifies (m : Int) (i : Nat) : Prop :=
  openStrings.getD i 0 ≤ m ∧ m - openStrings.getD i 0 ≤ 20

instance (m : Int) (i : Nat) : Decidable (qualifies m i) := by
  unfold qualifies; infer_instance

/-! ## note_to_midi -/

/-- note_to_midi from src/main.py.  The source parses only the final
character of the label as the octave (octave = int(note[-1])) and looks the
remaining prefix up in the pitch-class table; a non-digit final character or
an unknown prefix raises ValueError, modelled as none. -/
def note_to_midi (note : String) : Option Int :=
  match note.data.getLast? with
  | none => none
  | some c =>
    if c.isDigit then
      match noteNames.findIdx? (fun s => s = String.mk note.data.dropLast) with
      | none => none
      | some i => some ((i : Int) + (((c.toNat - 48 : Nat) : Int) + 1) * 12)
    else none

/-! ## NoteSmoother: smooth_notes -/

/-- smooth_notes from src/main.py: for each index i the boundary-clamped
window notes[max(0, i - ws/2) : i + ws/2 + 1]; if the window head occurs
strictly more than half the window length (integer division), output the
head, else the original entry.  Nat subtraction realises the max(0, _)
clamp of the Python slice. -/
def smooth_notes (notes : List String) (window_size : Nat) : List String :=
  (List.range notes.length).map (fun i =>
    let w := (notes.drop (i - window_size / 2)).take
      (i + window_size / 2 + 1 - (i - window_size / 2))
    if w.length / 2 < w.count w.headI then w.headI else notes.getD i "")

/-! ## NoteSegmenter: the run-length loop of generate_notes -/

/-- The run-length accumulation loop of generate_notes (src/main.py lines
104-114): cur is current_note, dur the run counter; on a change the finished
run is emitted, and the final run is flushed at the end. -/
def segLoop (cur : String) (dur : Nat) : List String → List (String × Nat)
  | [] => [(cur, dur)]
  | n :: rest =>
    if n = cur then segLoop cur (dur + 1) rest
    else (cur, dur) :: segLoop n 1 rest

/-- Run-length segmentation of generate_notes with durations converted to
seconds as duration * hop_length / sr.  The source indexes
smoothed_notes[0] and would raise IndexError on an empty input; that case is
unreachable under the claims, which assume a non-empty sequence. -/
def segment_runs (notes : List String) (hop sr : Nat) : List (String × Rat) :=
  match notes with
  | [] => []
  | n :: rest =>
    (segLoop n 1 rest).map (fun r => (r.1, ((r.2 : Rat) * hop) / sr))

/-! ## Tab rendering: generate_guitar_tabs -/

/-- Python int() truncation toward zero on a rational. -/
def pyInt (q : Rat) : Int := if 0 ≤ q then ⌊q⌋ else -⌊-q⌋

/-- Python str.rjust(w): left-pad with spaces to width w. -/
def pyRjust (s : String) (w : Nat) : String :=
  String.mk (List.replicate (w - s.length) (Char.ofNat 32)) ++ s

/-- The slots appended to the string keyed k for one note event, from the
inner loop of generate_guitar_tabs: the assigned string gets the
right-justified fret label then rep - 1 dashes, every other string gets rep
dashes. -/
def eventSlots (s f : String) (rep : Nat) (k : String) : List String :=
  if k = s then pyRjust f 2 :: List.replicate (rep - 1) "-"
  else List.replicate rep "-"

/-- Resolution of a note label to a (string, fret) pair in
generate_guitar_tabs: Rest maps to the dash pair, otherwise note_to_midi
then midi_to_guitar_tab; a parse failure (raised ValueError in the source)
is none. -/
def resolveEvent (note : String) : Option (String × String) :=
  if note = "Rest" then some ("-", "-")
  else
    match note_to_midi note with
    | none => none
    | some m => some (midi_to_guitar_tab m)

/-- Append one event to every per-string slot list. -/
def addEvent (tabs : List (String × List String)) (sf : String × String)
    (rep : Nat) : List (String × List String) :=
  tabs.map (fun kl => (kl.1, kl.2 ++ eventSlots sf.1 sf.2 rep kl.1))

/-- Length of the longest per-string slot list (max over the dict values in
generate_guitar_tabs). -/
def maxLen (tabs : List (String × List String)) : Nat :=
  tabs.foldl (fun m kl => max m kl.2.length) 0

/-- The final padding step of generate_guitar_tabs: right-pad every string
with dashes to the longest length. -/
def padTabs (tabs : List (String × List String)) : List (String × List String) :=
  tabs.map (fun kl => (kl.1, kl.2 ++ List.replicate (maxLen tabs - kl.2.length) "-"))

/-- The event loop of generate_guitar_tabs followed by the padding step;
none models the ValueError raised when a note label fails to parse. -/
def buildTabs (tabs : List (String × List String)) :
    List (String × Rat) → Option (List (String × List String))
  | [] => some (padTabs tabs)
  | (note, d) :: rest =>
    match resolveEvent note with
    | none => none
    | some sf => buildTabs (addEvent tabs sf (max 1 (pyInt (d * 10)).toNat)) rest

/-- generate_guitar_tabs from src/main.py, over note events with rational
durations; the per-string slot lists are kept in the dict insertion order
tabOrder. -/
def generate_guitar_tabs (events : List (String × Rat)) :
    Option (List (String × List String)) :=
  buildTabs (tabOrder.map (fun k => (k, ([] : List String)))) events

/-! ## PitchTracker frame count -/

/-- num_frames = 1 + (len(audio) - frame_size) // hop_length from
extract_pitch, with Python floor division on integers. -/
def numFrames (len fs hop : Nat) : Int :=
  1 + Int.fdiv ((len : Int) - fs) hop

/-! ## PitchTracker: extract_pitch over idealized real arithmetic -/

noncomputable section

/-- np.max(np.abs(audio)): maximum absolute value of the samples (0 for the
empty list; numpy raises there, a case no claim touches). -/
def maxAbs (l : List ℝ) : ℝ := l.foldl (fun m x => max m |x|) 0

/-- The normalization audio /= np.max(np.abs(audio)) in extract_pitch.
The source has no guard for a zero maximum: numpy then evaluates 0.0/0.0,
which is NaN; real division in this embedding cannot express NaN, so the
zero-divisor fact is stated separately for claim C6. -/
def normalizeAudio (audio : List ℝ) : List ℝ := audio.map (fun x => x / maxAbs audio)

/-- One coefficient of np.hanning(N): 0.5 - 0.5 cos(2 pi k / (N - 1)). -/
def hannWin (N k : Nat) : ℝ :=
  1 / 2 - 1 / 2 * Real.cos (2 * Real.pi * k / ((N : ℝ) - 1))

/-- The frame audio[i * hop : i * hop + fs]. -/
def frameAt (audio : List ℝ) (hop fs i : Nat) : List ℝ :=
  (audio.drop (i * hop)).take fs

/-- Element-wise product of a frame with the Hann window. -/
def windowed (frame : List ℝ) (fs : Nat) : List ℝ :=
  (List.range fs).map (fun k => frame.getD k 0 * hannWin fs k)

/-- Magnitude of the k-th DFT coefficient of the windowed frame
(scipy.fft.fft followed by np.abs). -/
def dftMag (x : List ℝ) (fs k : Nat) : ℝ :=
  Complex.abs (∑ j ∈ Finset.range fs,
    (x.getD j 0 : ℂ) * Complex.exp (-2 * Real.pi * Complex.I * j * k / fs))

/-- The positive-frequency half of the magnitude spectrum,
np.abs(fft(frame))[:frame_size // 2]. -/
def magnitudes (x : List ℝ) (fs : Nat) : List ℝ :=
  (List.range (fs / 2)).map (dftMag x fs)

/-- Accumulator loop for np.argmax: best index, best value, next index. -/
def argmaxAux (best : Nat) (bv : ℝ) (i : Nat) : List ℝ → Nat
  | [] => best
  | x :: r => if bv < x then argmaxAux i x (i + 1) r else argmaxAux best bv (i + 1) r

/-- np.argmax: index of the first maximum (0 on the empty list, where numpy
raises; unreachable under the claims). -/
def argmaxIdx : List ℝ → Nat
  | [] => 0
  | x :: r => argmaxAux 0 x 1 r

/-- The pitch estimate of frame i in extract_pitch: the spectral-peak
frequency peak_index * sr / frame_size, overridden to 0 when the maximum
absolute amplitude of the windowed frame is below 0.1. -/
def pitchAt (audio : List ℝ) (sr fs hop i : Nat) : ℝ :=
  let wf := windowed (frameAt audio hop fs i) fs
  if maxAbs wf < 1 / 10 then 0
  else (argmaxIdx (magnitudes wf fs) : ℝ) * sr / fs

/-- extract_pitch from src/main.py: normalize, then one pitch estimate per
frame over range(num_frames).  A non-positive num_frames yields an empty
range, hence an empty output list; the source has no shortness check. -/
def extract_pitch (audio : List ℝ) (sr fs hop : Nat) : List ℝ :=
  (List.range (numFrames audio.length fs hop).toNat).map
    (pitchAt (normalizeAudio audio) sr fs hop)

/-! ## NoteQuantizer: pitch_to_note -/

/-- Rounding half to even, the behavior of the Python built-in round (and of
numpy rounding) used on midi_note in pitch_to_note.  Away from exact halves
it agrees with rounding to the nearest integer. -/
def roundHalfEven (x : ℝ) : Int :=
  if Int.fract x = 1 / 2 then (if Even ⌊x⌋ then ⌊x⌋ else ⌊x⌋ + 1)
  else round x

/-- Modelled from the spec: rounding ties half away from zero, the tie
convention the specification ascribes to the reference quantizer; kept only
to compare with the source behavior roundHalfEven. -/
def roundHalfAway (x : ℝ) : Int :=
  if Int.fract x = 1 / 2 then (if 0 ≤ x then ⌊x⌋ + 1 else ⌊x⌋)
  else round x

/-- pitch_to_note from src/main.py: 0 maps to Rest, otherwise the label
note_names[midi % 12] ++ str(midi // 12 - 1) with
midi = round(12 * log2(pitch / 440) + 69); Python % and // are Int.emod and
Int.fdiv, Python round is half-to-even. -/
def pitch_to_note (pitch : ℝ) : String :=
  if pitch = 0 then "Rest"
  else
    noteNames.getD ((roundHalfEven (12 * Real.logb 2 (pitch / 440) + 69)) % 12).toNat ""
      ++ toString ((roundHalfEven (12 * Real.logb 2 (pitch / 440) + 69)).fdiv 12 - 1)

/-- Modelled from the spec: the quantizer with the half-away-from-zero tie
convention the specification states, for comparison with pitch_to_note. -/
def pitch_to_note_specRound (pitch : ℝ) : String :=
  if pitch = 0 then "Rest"
  else
    noteNames.getD ((roundHalfAway (12 * Real.logb 2 (pitch / 440) + 69)) % 12).toNat ""
      ++ toString ((roundHalfAway (12 * Real.logb 2 (pitch / 440) + 69)).fdiv 12 - 1)

/-- generate_notes from src/main.py: quantize every pitch, smooth with the
default window 5, then run-length segment into timed events. -/
def generate_notes (pitches : List ℝ) (sr : Nat) (hop : Nat) : List (String × Rat) :=
  segment_runs (smooth_notes (pitches.map pitch_to_note) 5) hop sr

end

/-! ## Helper lemmas for the fret search -/

lemma openStrings_enum_eq :
    openStrings.enum = [(0, 40), (1, 45), (2, 50), (3, 55), (4, 59), (5, 64)] := by
  decide

lemma tabStep_skip (m : Int) (b : Nat × Int) (i : Nat) (os : Int) (h : ¬ os ≤ m) :
    tabStep m b (i, os) = b := if_neg h

lemma tabStep_pass (m : Int) (b : Nat × Int) (i : Nat) (os : Int) (hle : os ≤ m)
    (h : ¬ (m - os ≤ 20 ∧ m - os < b.2)) : tabStep m b (i, os) = b :=
  (if_pos hle).trans (if_neg h)

lemma tab_unplayable (m : Int) (h : m < 40 ∨ 84 < m) : midi_to_guitar_tab m = ("-", "-") := by
  have hf : tabFold m = (0, 100) := by
    unfold tabFold
    rw [openStrings_enum_eq]
    simp only [List.foldl_cons, List.foldl_nil]
    rcases h with h | h
    · rw [tabStep_skip m _ _ _ (by omega), tabStep_skip m _ _ _ (by omega),
        tabStep_skip m _ _ _ (by omega), tabStep_skip m _ _ _ (by omega),
        tabStep_skip m _ _ _ (by omega), tabStep_skip m _ _ _ (by omega)]
    · rw [tabStep_pass m _ _ _ (by omega) (by simp; omega),
        tabStep_pass m _ _ _ (by omega) (by simp; omega),
        tabStep_pass m _ _ _ (by omega) (by simp; omega),
        tabStep_pass m _ _ _ (by omega) (by simp; omega),
        tabStep_pass m _ _ _ (by omega) (by simp; omega),
        tabStep_pass m _ _ _ (by omega) (by simp; omega)]
  unfold midi_to_guitar_tab
  rw [hf]
  rfl

set_option maxHeartbeats 1000000 in
lemma tab_best (m : Int) (i : Nat) (hi : i < 6) (hq : qualifies m i) :
    ∃ k, k < 6 ∧ qualifies m k ∧
      midi_to_guitar_tab m = (guitarStrings.getD k "-", toString (m - openStrings.getD k 0)) ∧
      (∀ j, j < 6 → qualifies m j → m - openStrings.getD k 0 ≤ m - openStrings.getD j 0) ∧
      (∀ j, j < 6 → qualifies m j → m - openStrings.getD j 0 = m - openStrings.getD k 0 → k ≤ j) := by
  have hm : 40 ≤ m ∧ m ≤ 84 := by
    interval_cases i <;> simp [qualifies, openStrings] at hq <;> omega
  obtain ⟨hm1, hm2⟩ := hm
  interval_cases m <;>
    first
      | exact ⟨5, by decide⟩
      | exact ⟨4, by decide⟩
      | exact ⟨3, by decide⟩
      | exact ⟨2, by decide⟩
      | exact ⟨1, by decide⟩
      | exact ⟨0, by decide⟩

/-! ## Claim C1 -/

/-- C1: midi_to_guitar_tab returns the (string, fret) pair minimizing the
fret over the six strings whose open MIDI is at most m with fret at most 20,
ties (vacuously, since frets on distinct strings differ) resolved toward the
lowest-pitched string; with no qualifying string it returns the dash pair;
and MIDI 40, 64, 60, 39 map to (E,0), (e,0), (B,1) and the dash pair. -/
theorem c1_midi_to_guitar_tab_minimal_fret (m : Int) :
    ((∀ i, i < 6 → ¬ qualifies m i) → midi_to_guitar_tab m = ("-", "-")) ∧
    (∀ i, i < 6 → qualifies m i → ∃ k, k < 6 ∧ qualifies m k ∧
      midi_to_guitar_tab m = (guitarStrings.getD k "-", toString (m - openStrings.getD k 0)) ∧
      (∀ j, j < 6 → qualifies m j → m - openStrings.getD k 0 ≤ m - openStrings.getD j 0) ∧
      (∀ j, j < 6 → qualifies m j → m - openStrings.getD j 0 = m - openStrings.getD k 0 → k ≤ j)) ∧
    midi_to_guitar_tab 40 = ("E", "0") ∧ midi_to_guitar_tab 64 = ("e", "0") ∧
    midi_to_guitar_tab 60 = ("B", "1") ∧ midi_to_guitar_tab 39 = ("-", "-") := by
  refine ⟨?_, fun i hi hq => tab_best m i hi hq, by decide, by decide, by decide, by decide⟩
  intro h
  have q0 := h 0 (by omega)
  have q1 := h 1 (by omega)
  have q2 := h 2 (by omega)
  have q3 := h 3 (by omega)
  have q4 := h 4 (by omega)
  have q5 := h 5 (by omega)
  simp only [qualifies, openStrings] at q0 q1 q2 q3 q4 q5
  simp at q0 q1 q2 q3 q4 q5
  exact tab_unplayable m (by omega)

/-- Witness for C1 at MIDI 60, string index 4 (the B string, fret 1). -/
theorem c1_witness :
    qualifies 60 4 ∧ (∃ k, k < 6 ∧ qualifies 60 k ∧
      midi_to_guitar_tab 60 = (guitarStrings.getD k "-", toString (60 - openStrings.getD k 0)) ∧
      (∀ j, j < 6 → qualifies 60 j → 60 - openStrings.getD k 0 ≤ 60 - openStrings.getD j 0) ∧
      (∀ j, j < 6 → qualifies 60 j →
        60 - openStrings.getD j 0 = 60 - openStrings.getD k 0 → k ≤ j)) :=
  ⟨by decide, (c1_midi_to_guitar_tab_minimal_fret 60).2.1 4 (by decide) (by decide)⟩

/-! ## Helper lemmas for the segmenter -/

lemma segLoop_sum (l : List String) : ∀ cur dur,
    ((segLoop cur dur l).map Prod.snd).sum = dur + l.length := by
  induction l with
  | nil => intro cur dur; simp [segLoop]
  | cons n rest ih =>
    intro cur dur
    by_cases h : n = cur
    · simp [segLoop, h, ih]; omega
    · simp [segLoop, h, ih]; omega

lemma segLoop_pos (l : List String) : ∀ cur dur, 0 < dur →
    ∀ r ∈ segLoop cur dur l, 0 < r.2 := by
  induction l with
  | nil => intro cur dur hd r hr; simp [segLoop] at hr; simp [hr, hd]
  | cons n rest ih =>
    intro cur dur hd r hr
    by_cases h : n = cur
    · simp only [segLoop, if_pos h] at hr
      exact ih cur (dur + 1) (by omega) r hr
    · simp only [segLoop, if_neg h] at hr
      rcases List.mem_cons.mp hr with h1 | h1
      · simp [h1, hd]
      · exact ih n 1 (by omega) r h1

lemma sum_map_runDur (hop sr : Nat) (L : List (String × Nat)) :
    (L.map (fun r => ((r.2 : Rat) * hop) / sr)).sum
      = (((L.map Prod.snd).sum : Nat) : Rat) * hop / sr := by
  induction L with
  | nil => simp
  | cons a L ih =>
    simp only [List.map_cons, List.sum_cons, ih]
    push_cast
    ring

/-! ## Claim C2 -/

/-- C2: for a non-empty note sequence the run-length segmentation of
generate_notes emits durations summing to len * hop_length / sample_rate,
every emitted duration being strictly positive. -/
theorem c2_segment_runs_partitions_duration (notes : List String) (hop sr : Nat)
    (hne : notes ≠ []) (hh : 0 < hop) (hs : 0 < sr) :
    ((segment_runs notes hop sr).map (fun e => e.2)).sum
      = (notes.length : Rat) * hop / sr ∧
    ∀ e ∈ segment_runs notes hop sr, 0 < e.2 := by
  match notes with
  | [] => exact absurd rfl hne
  | n :: rest =>
    constructor
    · show (((segLoop n 1 rest).map (fun r => (r.1, ((r.2 : Rat) * hop) / sr))).map
        (fun e => e.2)).sum = _
      rw [List.map_map]
      have h1 : ((fun e : String × Rat => e.2) ∘
          (fun r : String × Nat => (r.1, ((r.2 : Rat) * hop) / sr)))
          = fun r : String × Nat => ((r.2 : Rat) * hop) / sr := rfl
      rw [h1, sum_map_runDur, segLoop_sum]
      simp only [List.length_cons]
      push_cast
      ring
    · intro e he
      simp only [segment_runs, List.mem_map] at he
      obtain ⟨r, hr, rfl⟩ := he
      have hrp : 0 < r.2 := segLoop_pos rest n 1 (by omega) r hr
      have : (0 : Rat) < (r.2 : Rat) * hop := by
        have h1 : (0 : Rat) < (r.2 : Rat) := by exact_mod_cast hrp
        have h2 : (0 : Rat) < (hop : Rat) := by exact_mod_cast hh
        positivity
      have h3 : (0 : Rat) < (sr : Rat) := by exact_mod_cast hs
      positivity

/-- Witness for C2 on a three-note sequence with one run break. -/
theorem c2_witness :
    ((["A4", "A4", "Rest"] : List String) ≠ [] ∧ 0 < 512 ∧ 0 < 44100) ∧
    (((segment_runs ["A4", "A4", "Rest"] 512 44100).map (fun e => e.2)).sum
      = ((["A4", "A4", "Rest"] : List String).length : Rat) * 512 / 44100 ∧
    ∀ e ∈ segment_runs ["A4", "A4", "Rest"] 512 44100, 0 < e.2) :=
  ⟨⟨by decide, by decide, by decide⟩,
    c2_segment_runs_partitions_duration ["A4", "A4", "Rest"] 512 44100
      (by decide) (by decide) (by decide)⟩

/-! ## Claim C3 -/

/-- C3: for an odd window size, smooth_notes preserves length, and the
output at i is the head of the boundary-clamped window
notes[max(0, i - ws/2) : i + ws/2 + 1] when that head fills a strict
majority of the window (integer division), else the original entry. -/
theorem c3_smooth_notes_pointwise (notes : List String) (ws : Nat) (_hodd : Odd ws) :
    (smooth_notes notes ws).length = notes.length ∧
    ∀ i, i < notes.length →
      (smooth_notes notes ws).getD i "" =
        (if ((notes.drop (i - ws / 2)).take (i + ws / 2 + 1 - (i - ws / 2))).length / 2
            < ((notes.drop (i - ws / 2)).take (i + ws / 2 + 1 - (i - ws / 2))).count
              ((notes.drop (i - ws / 2)).take (i + ws / 2 + 1 - (i - ws / 2))).headI
         then ((notes.drop (i - ws / 2)).take (i + ws / 2 + 1 - (i - ws / 2))).headI
         else notes.getD i "") := by
  constructor
  · simp [smooth_notes]
  · intro i hi
    unfold smooth_notes
    rw [List.getD_eq_getElem?_getD, List.getElem?_map, List.getElem?_range hi]
    rfl

/-- Witness for C3: a single dissenting note at index 1 is overruled by the
majority head of its window. -/
theorem c3_witness :
    Odd 5 ∧ 1 < (["A", "B", "A", "A", "A"] : List String).length ∧
    (smooth_notes ["A", "B", "A", "A", "A"] 5).getD 1 "" = "A" := by
  refine ⟨by decide, by decide, ?_⟩
  rw [(c3_smooth_notes_pointwise ["A", "B", "A", "A", "A"] 5 (by decide)).2 1 (by decide)]
  decide

/-! ## Helper lemmas for the quantizer -/

lemma roundHalfEven_of_ne (x : ℝ) (h : Int.fract x ≠ 1 / 2) : roundHalfEven x = round x :=
  if_neg h

lemma midi_of_440 : roundHalfEven (12 * Real.logb 2 ((440:ℝ) / 440) + 69) = 69 := by
  have harg : (440:ℝ) / 440 = 1 := by norm_num
  rw [harg, Real.logb_one]
  norm_num
  rw [roundHalfEven_of_ne _ (by unfold Int.fract; norm_num)]
  norm_num

lemma midi_of_880 : roundHalfEven (12 * Real.logb 2 ((880:ℝ) / 440) + 69) = 81 := by
  have harg : (880:ℝ) / 440 = 2 := by norm_num
  rw [harg, Real.logb_self_eq_one (by norm_num)]
  norm_num
  rw [roundHalfEven_of_ne _ (by unfold Int.fract; norm_num)]
  norm_num

lemma quantizer_arg_tie : 12 * Real.logb 2 ((440 * (2:ℝ) ^ ((1:ℝ)/8)) / 440) + 69 = (141:ℝ)/2 := by
  have harg : (440 * (2:ℝ) ^ ((1:ℝ)/8)) / 440 = (2:ℝ) ^ ((1:ℝ)/8) := by
    rw [mul_comm, mul_div_assoc]
    norm_num
  rw [harg, Real.logb_rpow (by norm_num) (by norm_num)]
  norm_num

lemma fract_141_half : Int.fract ((141:ℝ)/2) = 1/2 := by unfold Int.fract; norm_num

lemma roundHalfEven_tie : roundHalfEven ((141:ℝ)/2) = 70 := by
  unfold roundHalfEven
  rw [if_pos fract_141_half]
  have hfl : ⌊(141:ℝ)/2⌋ = 70 := by norm_num
  rw [hfl, if_pos (by decide)]

lemma roundHalfAway_tie : roundHalfAway ((141:ℝ)/2) = 71 := by
  unfold roundHalfAway
  rw [if_pos fract_141_half]
  have hfl : ⌊(141:ℝ)/2⌋ = 70 := by norm_num
  rw [hfl, if_pos (by norm_num)]
  decide

lemma quantizer_arg_a10 : 12 * Real.logb 2 ((440 * (2:ℝ) ^ (6:ℕ)) / 440) + 69 = (141:ℝ) := by
  have harg : (440 * (2:ℝ) ^ (6:ℕ)) / 440 = (2:ℝ) ^ (6:ℕ) := by
    rw [mul_comm, mul_div_assoc]
    norm_num
  rw [harg, Real.logb_pow, Real.logb_self_eq_one (by norm_num)]
  norm_num

lemma pitch_to_note_high_a : pitch_to_note (440 * (2:ℝ) ^ (6:ℕ)) = "A10" := by
  have hne : (440 * (2:ℝ) ^ (6:ℕ)) ≠ 0 := by positivity
  unfold pitch_to_note
  rw [if_neg hne, quantizer_arg_a10,
    roundHalfEven_of_ne _ (by unfold Int.fract; norm_num)]
  norm_num
  decide

/-! ## Claim C4 -/

/-- C4 (amended): pitch_to_note maps 0 to Rest and any positive frequency to
the label note_names[midi mod 12] with octave floor(midi/12) - 1 where midi
rounds 12 log2(f/440) + 69 half to even (the Python round convention, not
half away from zero); 440 Hz gives A4 and 880 Hz gives A5. -/
theorem c4_pitch_to_note_quantization :
    pitch_to_note 0 = "Rest" ∧
    (∀ f : ℝ, 0 < f → pitch_to_note f =
      noteNames.getD ((roundHalfEven (12 * Real.logb 2 (f / 440) + 69)) % 12).toNat ""
        ++ toString ((roundHalfEven (12 * Real.logb 2 (f / 440) + 69)).fdiv 12 - 1)) ∧
    pitch_to_note 440 = "A4" ∧ pitch_to_note 880 = "A5" := by
  refine ⟨by unfold pitch_to_note; rw [if_pos rfl],
    fun f hf => by unfold pitch_to_note; rw [if_neg (ne_of_gt hf)], ?_, ?_⟩
  · unfold pitch_to_note
    rw [if_neg (by norm_num : (440:ℝ) ≠ 0), midi_of_440]
    decide
  · unfold pitch_to_note
    rw [if_neg (by norm_num : (880:ℝ) ≠ 0), midi_of_880]
    decide

/-- Witness for C4 at 440 Hz. -/
theorem c4_witness :
    (0:ℝ) < 440 ∧ pitch_to_note 440 =
      noteNames.getD ((roundHalfEven (12 * Real.logb 2 ((440:ℝ) / 440) + 69)) % 12).toNat ""
        ++ toString ((roundHalfEven (12 * Real.logb 2 ((440:ℝ) / 440) + 69)).fdiv 12 - 1) :=
  ⟨by norm_num, c4_pitch_to_note_quantization.2.1 440 (by norm_num)⟩

/-- Counterexample for C4 as stated: at f = 440 * 2^(1/8) the exact midi
value is 70.5; the source (Python round, half to even) yields midi 70 and
label A#4, while the half-away-from-zero convention the claim states yields
midi 71 and label B4. -/
theorem c4_counterexample :
    pitch_to_note (440 * (2:ℝ) ^ ((1:ℝ)/8)) = "A#4" ∧
    pitch_to_note_specRound (440 * (2:ℝ) ^ ((1:ℝ)/8)) = "B4" := by
  have hne : (440 * (2:ℝ) ^ ((1:ℝ)/8)) ≠ 0 := by positivity
  constructor
  · unfold pitch_to_note
    rw [if_neg hne, quantizer_arg_tie, roundHalfEven_tie]
    decide
  · unfold pitch_to_note_specRound
    rw [if_neg hne, quantizer_arg_tie, roundHalfAway_tie]
    decide

/-! ## Claim C8 -/

/-- C8 (amended): for every recognized pitch class and single-digit octave
0..9, note_to_midi parses the label and returns
notes.index(pitch_class) + (octave + 1) * 12; labels whose octave has more
than one digit fail even with a recognized pitch class, because the source
reads only the final character as the octave. -/
theorem c8_note_to_midi_formula : ∀ pc ∈ noteNames, ∀ oct : Nat, oct ≤ 9 →
    note_to_midi (pc ++ toString oct)
      = some ((noteNames.findIdx (fun s => s = pc) : Int) + ((oct : Int) + 1) * 12) := by
  intro pc hpc oct hoct
  fin_cases hpc <;> interval_cases oct <;> decide

/-- Witness for C8 at the label A4. -/
theorem c8_witness :
    ("A" ∈ noteNames ∧ (4:Nat) ≤ 9) ∧
    note_to_midi ("A" ++ toString (4:Nat))
      = some ((noteNames.findIdx (fun s => s = "A") : Int) + ((4:Int) + 1) * 12) :=
  ⟨⟨by decide, by decide⟩, c8_note_to_midi_formula "A" (by decide) 4 (by decide)⟩

/-- Counterexample for C8 as stated: the quantizer produces the label A10
(for example at 28160 Hz, six octaves above A4) whose pitch class A is
recognized, yet note_to_midi fails on it: it parses the octave from the
final character only, leaving the unknown pitch-class prefix A1. -/
theorem c8_counterexample :
    pitch_to_note (440 * (2:ℝ) ^ (6:ℕ)) = "A10" ∧
    "A" ∈ noteNames ∧ note_to_midi "A10" = none :=
  ⟨pitch_to_note_high_a, by decide, by decide⟩

/-! ## Helper lemmas for the tab renderer -/

lemma eventSlots_length (s f : String) (rep : Nat) (hr : 0 < rep) (k : String) :
    (eventSlots s f rep k).length = rep := by
  unfold eventSlots
  split_ifs
  · simp
    omega
  · simp

lemma single_event_tabs (note : String) (d : Rat) (sf : String × String)
    (h : resolveEvent note = some sf) :
    generate_guitar_tabs [(note, d)]
      = some (tabOrder.map (fun k =>
          (k, eventSlots sf.1 sf.2 (max 1 (pyInt (d * 10)).toNat) k))) := by
  set R := max 1 (pyInt (d * 10)).toNat with hR
  have hRpos : 0 < R := by omega
  show buildTabs _ _ = _
  unfold buildTabs
  rw [h]
  show some (padTabs (addEvent (tabOrder.map (fun k => (k, ([] : List String)))) sf R)) = _
  have h1 : addEvent (tabOrder.map (fun k => (k, ([] : List String)))) sf R
      = tabOrder.map (fun k => (k, eventSlots sf.1 sf.2 R k)) := by
    unfold addEvent
    rw [List.map_map]
    rfl
  rw [h1]
  have h2 : padTabs (tabOrder.map (fun k => (k, eventSlots sf.1 sf.2 R k)))
      = tabOrder.map (fun k => (k, eventSlots sf.1 sf.2 R k)) := by
    unfold padTabs
    have hml : maxLen (tabOrder.map (fun k => (k, eventSlots sf.1 sf.2 R k))) = R := by
      unfold maxLen tabOrder
      simp only [List.map_cons, List.map_nil, List.foldl_cons, List.foldl_nil]
      simp only [eventSlots_length sf.1 sf.2 R hRpos]
      omega
    rw [hml]
    unfold tabOrder
    simp only [List.map_cons, List.map_nil]
    simp only [eventSlots_length sf.1 sf.2 R hRpos, Nat.sub_self, List.replicate_zero,
      List.append_nil]
  rw [h2]

lemma rep_tenth : max 1 (pyInt ((1:Rat)/10 * 10)).toNat = 1 := by
  have h1 : ((1:Rat)/10 * 10) = 1 := by norm_num
  rw [h1]
  have h2 : pyInt 1 = 1 := by unfold pyInt; rw [if_pos (by norm_num)]; norm_num
  rw [h2]
  decide

lemma rep_half : max 1 (pyInt ((1:Rat)/2 * 10)).toNat = 5 := by
  have h1 : ((1:Rat)/2 * 10) = 5 := by norm_num
  rw [h1]
  have h2 : pyInt 5 = 5 := by unfold pyInt; rw [if_pos (by norm_num)]; norm_num
  rw [h2]
  decide

lemma rep_nineteen_hundredths : max 1 (pyInt ((19:Rat)/100 * 10)).toNat = 1 := by
  have h1 : ((19:Rat)/100 * 10) = 19/10 := by norm_num
  rw [h1]
  have h2 : pyInt (19/10) = 1 := by
    unfold pyInt
    rw [if_pos (by norm_num)]
    norm_num
  rw [h2]
  decide

/-! ## Claim C5 -/

/-- C5 (amended): each note event of duration d produces exactly
max(1, int(d * 10)) slots on every one of the six strings, int truncating
toward zero as in the source (the claim stated round); the assigned string
gets the width-2 right-justified fret label then repeat - 1 dashes, every
other string gets repeat dashes. -/
theorem c5_generate_guitar_tabs_slots (note : String) (d : Rat) (sf : String × String)
    (h : resolveEvent note = some sf) :
    generate_guitar_tabs [(note, d)]
      = some (tabOrder.map (fun k =>
          (k, eventSlots sf.1 sf.2 (max 1 (pyInt (d * 10)).toNat) k))) ∧
    ∀ k : String,
      (eventSlots sf.1 sf.2 (max 1 (pyInt (d * 10)).toNat) k).length
        = max 1 (pyInt (d * 10)).toNat ∧
      (k = sf.1 → eventSlots sf.1 sf.2 (max 1 (pyInt (d * 10)).toNat) k
        = pyRjust sf.2 2 :: List.replicate (max 1 (pyInt (d * 10)).toNat - 1) "-") ∧
      (k ≠ sf.1 → eventSlots sf.1 sf.2 (max 1 (pyInt (d * 10)).toNat) k
        = List.replicate (max 1 (pyInt (d * 10)).toNat) "-") := by
  refine ⟨single_event_tabs note d sf h, fun k => ⟨eventSlots_length _ _ _ (by omega) k, ?_, ?_⟩⟩
  · intro hk
    unfold eventSlots
    rw [if_pos hk]
  · intro hk
    unfold eventSlots
    rw [if_neg hk]

/-- Witness for C5 with the event (E2, 1 second). -/
theorem c5_witness :
    resolveEvent "E2" = some ("E", "0") ∧
    (generate_guitar_tabs [("E2", (1:Rat))]
      = some (tabOrder.map (fun k =>
          (k, eventSlots "E" "0" (max 1 (pyInt ((1:Rat) * 10)).toNat) k))) ∧
    ∀ k : String,
      (eventSlots "E" "0" (max 1 (pyInt ((1:Rat) * 10)).toNat) k).length
        = max 1 (pyInt ((1:Rat) * 10)).toNat ∧
      (k = "E" → eventSlots "E" "0" (max 1 (pyInt ((1:Rat) * 10)).toNat) k
        = pyRjust "0" 2 :: List.replicate (max 1 (pyInt ((1:Rat) * 10)).toNat - 1) "-") ∧
      (k ≠ "E" → eventSlots "E" "0" (max 1 (pyInt ((1:Rat) * 10)).toNat) k
        = List.replicate (max 1 (pyInt ((1:Rat) * 10)).toNat) "-")) :=
  ⟨by decide, c5_generate_guitar_tabs_slots "E2" 1 ("E", "0") (by decide)⟩

/-- Counterexample for C5 as stated: a Rest of 0.19 seconds renders as a
single slot per string (int(1.9) = 1), while the claimed formula
max(1, round(0.19 * 10)) = 2 demands two slots. -/
theorem c5_counterexample :
    generate_guitar_tabs [("Rest", (19:Rat)/100)]
      = some [("e", ["-"]), ("B", ["-"]), ("G", ["-"]), ("D", ["-"]), ("A", ["-"]),
              ("E", ["-"])] ∧
    max 1 (round ((19:Rat)/100 * 10)) = 2 := by
  constructor
  · rw [single_event_tabs "Rest" ((19:Rat)/100) ("-", "-") (by decide),
      rep_nineteen_hundredths]
    decide
  · have h1 : ((19:Rat)/100 * 10) = 19/10 := by norm_num
    have h2 : round ((19:Rat)/10) = 2 := by
      rw [round_eq]
      norm_num
    rw [h1, h2]
    decide

/-! ## Helper lemmas for tab padding -/

lemma foldl_max_init_le (t : List (String × List String)) :
    ∀ a : Nat, a ≤ t.foldl (fun m kl => max m kl.2.length) a := by
  induction t with
  | nil => intro a; simp
  | cons kl t ih =>
    intro a
    simp only [List.foldl_cons]
    exact le_trans (le_max_left a kl.2.length) (ih (max a kl.2.length))

lemma length_le_foldl_max (t : List (String × List String)) :
    ∀ a : Nat, ∀ kl ∈ t, kl.2.length ≤ t.foldl (fun m kl => max m kl.2.length) a := by
  induction t with
  | nil => intro a kl h; simp at h
  | cons hd t ih =>
    intro a kl h
    simp only [List.foldl_cons]
    rcases List.mem_cons.mp h with h1 | h1
    · subst h1
      exact le_trans (le_max_right a kl.2.length) (foldl_max_init_le t _)
    · exact ih _ kl h1

lemma padTabs_entry_length (t : List (String × List String)) :
    ∀ p ∈ padTabs t, p.2.length = maxLen t := by
  intro p hp
  unfold padTabs at hp
  rw [List.mem_map] at hp
  obtain ⟨kl, hkl, rfl⟩ := hp
  simp only [List.length_append, List.length_replicate]
  have hle : kl.2.length ≤ maxLen t := length_le_foldl_max t 0 kl hkl
  omega

lemma buildTabs_padded : ∀ (evs : List (String × Rat)) (t tabs : List (String × List String)),
    buildTabs t evs = some tabs → ∃ t0, tabs = padTabs t0 := by
  intro evs
  induction evs with
  | nil =>
    intro t tabs h
    simp only [buildTabs, Option.some.injEq] at h
    exact ⟨t, h.symm⟩
  | cons e rest ih =>
    intro t tabs h
    obtain ⟨note, d⟩ := e
    unfold buildTabs at h
    cases hre : resolveEvent note with
    | none => rw [hre] at h; exact absurd h (by simp)
    | some sf =>
      rw [hre] at h
      exact ih _ tabs h

/-! ## Claim C9 -/

/-- C9 (amended): the six per-string slot lists returned by
generate_guitar_tabs always have equal length (number of slots) after the
final padding; the further claim that each slot has a fixed character width
making the rendered lines column-aligned is refuted separately, since a fret
slot is two characters while a dash slot is one. -/
theorem c9_generate_guitar_tabs_equal_lengths (events : List (String × Rat))
    (tabs : List (String × List String))
    (h : generate_guitar_tabs events = some tabs) :
    ∀ p ∈ tabs, ∀ q ∈ tabs, p.2.length = q.2.length := by
  obtain ⟨t0, rfl⟩ := buildTabs_padded events _ tabs h
  intro p hp q hq
  rw [padTabs_entry_length t0 p hp, padTabs_entry_length t0 q hq]

/-- Witness for C9: a half-second Rest gives six slot lists of length 5. -/
theorem c9_witness :
    generate_guitar_tabs [("Rest", (1:Rat)/2)]
      = some [("e", List.replicate 5 "-"), ("B", List.replicate 5 "-"),
              ("G", List.replicate 5 "-"), ("D", List.replicate 5 "-"),
              ("A", List.replicate 5 "-"), ("E", List.replicate 5 "-")] ∧
    ∀ p ∈ [("e", List.replicate 5 "-"), ("B", List.replicate 5 "-"),
           ("G", List.replicate 5 "-"), ("D", List.replicate 5 "-"),
           ("A", List.replicate 5 "-"), ("E", List.replicate 5 ("-" : String))],
      ∀ q ∈ [("e", List.replicate 5 "-"), ("B", List.replicate 5 "-"),
             ("G", List.replicate 5 "-"), ("D", List.replicate 5 "-"),
             ("A", List.replicate 5 "-"), ("E", List.replicate 5 ("-" : String))],
        p.2.length = q.2.length := by
  have h : generate_guitar_tabs [("Rest", (1:Rat)/2)]
      = some [("e", List.replicate 5 "-"), ("B", List.replicate 5 "-"),
              ("G", List.replicate 5 "-"), ("D", List.replicate 5 "-"),
              ("A", List.replicate 5 "-"), ("E", List.replicate 5 "-")] := by
    rw [single_event_tabs "Rest" ((1:Rat)/2) ("-", "-") (by decide), rep_half]
    decide
  exact ⟨h, c9_generate_guitar_tabs_equal_lengths [("Rest", (1:Rat)/2)] _ h⟩

/-- Counterexample for C9 as stated: the event (E2, 0.1 s) puts the two
character slot  0 on the low E string and a one character dash slot on every
other string, so the joined lines differ in character length and the columns
cannot align. -/
theorem c9_counterexample :
    generate_guitar_tabs [("E2", (1:Rat)/10)]
      = some [("e", ["-"]), ("B", ["-"]), ("G", ["-"]), ("D", ["-"]), ("A", ["-"]),
              ("E", [" 0"])] ∧
    ¬ (∀ p ∈ [("e", ["-"]), ("B", ["-"]), ("G", ["-"]), ("D", ["-"]), ("A", ["-"]),
              ("E", ([" 0"] : List String))],
       ∀ q ∈ [("e", ["-"]), ("B", ["-"]), ("G", ["-"]), ("D", ["-"]), ("A", ["-"]),
              ("E", ([" 0"] : List String))],
       (String.join p.2).length = (String.join q.2).length) := by
  constructor
  · rw [single_event_tabs "E2" ((1:Rat)/10) ("E", "0") (by decide), rep_tenth]
    decide
  · decide

/-! ## Claim C7 -/

/-- C7 (amended): extract_pitch performs no InvalidInput check; its output
length is always the clamped frame count, so a buffer shorter than one
frame (num_frames <= 0) yields an empty estimate list instead of a failure,
and otherwise exactly num_frames estimates are returned, one per frame. -/
theorem c7_extract_pitch_frame_count (audio : List ℝ) (sr fs hop : Nat) :
    (extract_pitch audio sr fs hop).length = (numFrames audio.length fs hop).toNat ∧
    (numFrames audio.length fs hop ≤ 0 → extract_pitch audio sr fs hop = []) := by
  constructor
  · unfold extract_pitch
    simp
  · intro h
    unfold extract_pitch
    have h0 : (numFrames audio.length fs hop).toNat = 0 := by omega
    rw [h0]
    simp

/-- Witness for C7 on a 100-sample buffer, far shorter than one frame. -/
theorem c7_witness :
    numFrames (List.replicate 100 (1:ℝ)).length 2048 512 ≤ 0 ∧
    extract_pitch (List.replicate 100 (1:ℝ)) 44100 2048 512 = [] := by
  have h : numFrames (List.replicate 100 (1:ℝ)).length 2048 512 ≤ 0 := by
    rw [List.length_replicate]
    decide
  exact ⟨h, (c7_extract_pitch_frame_count (List.replicate 100 (1:ℝ)) 44100 2048 512).2 h⟩

/-- Counterexample for C7 as stated: on a 50-sample buffer num_frames is
negative, yet extract_pitch does not fail with InvalidInput; it returns the
ordinary value [], an empty estimate list. -/
theorem c7_counterexample :
    numFrames 50 2048 512 ≤ 0 ∧
    extract_pitch (List.replicate 50 (1:ℝ)) 44100 2048 512 = [] := by
  constructor
  · decide
  · unfold extract_pitch
    rw [List.length_replicate]
    have h : (numFrames 50 2048 512).toNat = 0 := by decide
    rw [h]
    simp

/-! ## Claim C6 -/

lemma foldl_max_abs_of_zero : ∀ (l : List ℝ), (∀ x ∈ l, x = 0) → ∀ c : ℝ, 0 ≤ c →
    l.foldl (fun m x => max m |x|) c = c := by
  intro l
  induction l with
  | nil => intro _ c _; rfl
  | cons x r ih =>
    intro h c hc
    simp only [List.foldl_cons]
    have hx : x = 0 := h x (List.mem_cons_self x r)
    have : max c |x| = c := by
      rw [hx]
      simp [hc]
    rw [this]
    exact ih (fun y hy => h y (List.mem_cons_of_mem x hy)) c hc

lemma maxAbs_of_all_zero (l : List ℝ) (h : ∀ x ∈ l, x = 0) : maxAbs l = 0 :=
  foldl_max_abs_of_zero l h 0 le_rfl

/-- C6: the claim asks that a totally silent buffer never be divided by
zero; but the normalization divisor np.max(np.abs(audio)) used by
extract_pitch is exactly 0 on the all-zero buffer, and the source has no
guard, so audio /= max performs 0.0/0.0 elementwise.  In IEEE arithmetic
(numpy) that is NaN, not a DegenerateInput failure and not an all-zero
buffer; the real-number embedding states the zero divisor, the NaN outcome
being outside real arithmetic. -/
theorem c6_silent_buffer_zero_divisor (n : Nat) :
    maxAbs (List.replicate n (0:ℝ)) = 0 ∧
    normalizeAudio (List.replicate n (0:ℝ))
      = (List.replicate n (0:ℝ)).map (fun x => x / 0) := by
  have h : maxAbs (List.replicate n (0:ℝ)) = 0 :=
    maxAbs_of_all_zero _ (fun x hx => List.eq_of_mem_replicate hx)
  refine ⟨h, ?_⟩
  unfold normalizeAudio
  rw [h]

/-! ## Helper lemmas for the spectral peak index -/

lemma argmaxAux_lt (l : List ℝ) : ∀ (best : Nat) (bv : ℝ) (i : Nat), best < i →
    argmaxAux best bv i l < i + l.length := by
  induction l with
  | nil => intro best bv i h; simpa [argmaxAux] using h
  | cons x r ih =>
    intro best bv i h
    unfold argmaxAux
    split_ifs
    · have := ih i x (i + 1) (by omega)
      simp only [List.length_cons]
      omega
    · have := ih best bv (i + 1) (by omega)
      simp only [List.length_cons]
      omega

lemma argmaxIdx_lt (l : List ℝ) (h : l ≠ []) : argmaxIdx l < l.length := by
  match l with
  | [] => exact absurd rfl h
  | x :: r =>
    unfold argmaxIdx
    have := argmaxAux_lt r 0 x 1 (by omega)
    simp only [List.length_cons]
    omega

/-! ## Claim C10 -/

/-- C10: every estimate of extract_pitch is the silence sentinel 0 or a bin
frequency bin * sr / frame_size with bin below frame_size / 2; hence every
estimate is non-negative and strictly below the Nyquist frequency sr / 2. -/
theorem c10_extract_pitch_range (audio : List ℝ) (sr fs hop : Nat) (p : ℝ)
    (hp : p ∈ extract_pitch audio sr fs hop) (hsr : 0 < sr) (hfs : 0 < fs) :
    (p = 0 ∨ ∃ b : Nat, b < fs / 2 ∧ p = (b : ℝ) * sr / fs) ∧
    0 ≤ p ∧ p < (sr : ℝ) / 2 := by
  have hsrR : (0:ℝ) < (sr : ℝ) := by exact_mod_cast hsr
  have hfsR : (0:ℝ) < (fs : ℝ) := by exact_mod_cast hfs
  have hdisj : p = 0 ∨ ∃ b : Nat, b < fs / 2 ∧ p = (b : ℝ) * sr / fs := by
    unfold extract_pitch at hp
    rw [List.mem_map] at hp
    obtain ⟨i, _, hpi⟩ := hp
    unfold pitchAt at hpi
    set wf := windowed (frameAt (normalizeAudio audio) hop fs i) fs with hwf
    by_cases hs : maxAbs wf < 1/10
    · rw [if_pos hs] at hpi
      exact Or.inl hpi.symm
    · rw [if_neg hs] at hpi
      by_cases hfz : fs / 2 = 0
      · left
        have hmag : magnitudes wf fs = [] := by
          unfold magnitudes
          rw [hfz]
          rfl
        rw [hmag] at hpi
        rw [← hpi]
        show (argmaxIdx [] : ℝ) * sr / fs = 0
        norm_num [argmaxIdx]
      · right
        refine ⟨argmaxIdx (magnitudes wf fs), ?_, hpi.symm⟩
        have hlen : (magnitudes wf fs).length = fs / 2 := by
          unfold magnitudes
          simp
        have hne : magnitudes wf fs ≠ [] := by
          intro hh
          rw [hh] at hlen
          simp at hlen
          omega
        have := argmaxIdx_lt _ hne
        omega
  refine ⟨hdisj, ?_, ?_⟩
  · rcases hdisj with rfl | ⟨b, _, rfl⟩
    · exact le_rfl
    · positivity
  · rcases hdisj with rfl | ⟨b, hb, rfl⟩
    · positivity
    · have h2b : 2 * b < fs := by omega
      rw [div_lt_div_iff₀ hfsR (by norm_num : (0:ℝ) < 2)]
      have hcast : (2:ℝ) * b < (fs:ℝ) := by exact_mod_cast h2b
      nlinarith

/-! ## Evaluation of extract_pitch on an all-zero frame -/

lemma getD_replicate_zero (n k : Nat) : (List.replicate n (0:ℝ)).getD k 0 = 0 := by
  induction n generalizing k with
  | zero => simp
  | succ m ih =>
    cases k with
    | zero => simp [List.replicate_succ]
    | succ j => simp [List.replicate_succ, ih]

lemma normalizeAudio_zero (n : Nat) :
    normalizeAudio (List.replicate n (0:ℝ)) = List.replicate n (0:ℝ) := by
  unfold normalizeAudio
  rw [maxAbs_of_all_zero _ (fun x hx => List.eq_of_mem_replicate hx)]
  rw [List.map_replicate]
  norm_num

lemma frameAt_zero :
    frameAt (List.replicate 2048 (0:ℝ)) 512 2048 0 = List.replicate 2048 (0:ℝ) := by
  unfold frameAt
  rw [Nat.zero_mul, List.drop_zero, List.take_replicate, Nat.min_self]

lemma windowed_zero_mem (x : ℝ)
    (hx : x ∈ windowed (List.replicate 2048 (0:ℝ)) 2048) : x = 0 := by
  unfold windowed at hx
  rw [List.mem_map] at hx
  obtain ⟨k, _, rfl⟩ := hx
  rw [getD_replicate_zero]
  ring

lemma extract_pitch_zero_buffer :
    extract_pitch (List.replicate 2048 (0:ℝ)) 44100 2048 512 = [0] := by
  unfold extract_pitch
  rw [List.length_replicate]
  have h1 : (numFrames 2048 2048 512).toNat = 1 := by decide
  rw [h1]
  have h2 : List.range 1 = [0] := rfl
  rw [h2, List.map_singleton, normalizeAudio_zero]
  have hmax : maxAbs (windowed (frameAt (List.replicate 2048 (0:ℝ)) 512 2048 0) 2048) = 0 := by
    rw [frameAt_zero]
    exact maxAbs_of_all_zero _ windowed_zero_mem
  unfold pitchAt
  simp only [hmax]
  norm_num

/-- Witness for C10: the silent 2048-sample buffer yields the single
estimate 0, which satisfies the range property. -/
theorem c10_witness :
    ((0:ℝ) ∈ extract_pitch (List.replicate 2048 (0:ℝ)) 44100 2048 512 ∧
      0 < 44100 ∧ 0 < 2048) ∧
    (((0:ℝ) = 0 ∨ ∃ b : Nat, b < 2048 / 2 ∧ (0:ℝ) = (b : ℝ) * (44100:Nat) / (2048:Nat)) ∧
      0 ≤ (0:ℝ) ∧ (0:ℝ) < ((44100:Nat) : ℝ) / 2) := by
  have hm : (0:ℝ) ∈ extract_pitch (List.replicate 2048 (0:ℝ)) 44100 2048 512 := by
    rw [extract_pitch_zero_buffer]
    exact List.mem_singleton.mpr rfl
  exact ⟨⟨hm, by norm_num, by norm_num⟩,
    c10_extract_pitch_range (List.replicate 2048 (0:ℝ)) 44100 2048 512 0 hm
      (by norm_num) (by norm_num)⟩
